import Mathlib

/-!
Verification of the SteamSaleTracker monitor/subscription engine
(`src/main.py`) against its natural-language specification.

The Python program keeps a JSON document `monitor_list.json` mapping a game
id (a string) to a record with fields `name`, `appid`, `region`,
`last_price`, `original_price`, `discount` and `subscribers`.  We embed that
document as an association list with string keys.  Python `dict` semantics
(unique keys, insertion order preserved, assignment replaces the value of an
existing key, `del` removes the key) are modelled by `dictGet` / `dictSet` /
`dictDel` below; `dictSet` rewrites every entry carrying the key and
`dictDel` drops every such entry, which on the duplicate-free lists produced
by `json.load` coincides with `dict` behaviour.

Prices are modelled as rationals.  The one place where the Python program's
use of binary floating point is itself under scrutiny (claim C7, the
division of integer minor units by 100 in `get_steam_price`) gets an
explicit model of IEEE-754 binary64 rounding, `floatDivNat`.
-/

set_option linter.unusedVariables false

/-- Subscriber records stored in a game's `subscribers` list: either
`{"type": "user", "id": ...}` or `{"type": "group", "id": ..., "member_ids": [...]}`. -/
inductive Subscriber where
  | user (id : String)
  | group (id : String) (member_ids : List String)
  deriving DecidableEq

/-- One value of the `monitor_list.json` mapping (the per-game record built
in `steamremind_command` and mutated by `monitor_prices`). -/
structure GameInfo where
  name : String
  appid : String
  region : String
  last_price : Option ℚ
  original_price : Option ℚ
  discount : Option ℤ
  subscribers : List Subscriber
  deriving DecidableEq

/-- The persisted monitor list: a JSON object, i.e. string keys to records. -/
abbrev MonitorList := List (String × GameInfo)

/-- Python `d[k]` / `k in d` lookup on a JSON object, first matching key. -/
def dictGet {α : Type} : List (String × α) → String → Option α
  | [], _ => none
  | (k, v) :: rest, key => if k = key then some v else dictGet rest key

/-- Python `d[k] = v` on an existing key: replace the value stored at `key`.
On a duplicate-free association list this is exactly `dict` assignment. -/
def dictSet {α : Type} : List (String × α) → String → α → List (String × α)
  | [], _, _ => []
  | (k, v) :: rest, key, newv =>
      if k = key then (k, newv) :: dictSet rest key newv
      else (k, v) :: dictSet rest key newv

/-- Python `del d[k]`: drop the entries carrying `key`. -/
def dictDel {α : Type} : List (String × α) → String → List (String × α)
  | [], _ => []
  | (k, v) :: rest, key =>
      if k = key then dictDel rest key else (k, v) :: dictDel rest key

/-- The keys of a JSON object, in order. -/
def dictKeys {α : Type} (l : List (String × α)) : List String := l.map Prod.fst

theorem dictGet_dictSet_self {α : Type} (l : List (String × α)) (key : String) (v : α) :
    dictGet (dictSet l key v) key = (dictGet l key).map (fun _ => v) := by
  induction l with
  | nil => rfl
  | cons p rest ih =>
      obtain ⟨k, w⟩ := p
      by_cases h : k = key <;> simp [dictGet, dictSet, h, ih]

theorem dictGet_dictSet_other {α : Type} (l : List (String × α)) {key key2 : String}
    (v : α) (h : key2 ≠ key) : dictGet (dictSet l key2 v) key = dictGet l key := by
  induction l with
  | nil => rfl
  | cons p rest ih =>
      obtain ⟨k, w⟩ := p
      by_cases hk : k = key2
      · subst hk; simp [dictGet, dictSet, h, ih]
      · by_cases hk2 : k = key <;>
          simp [dictGet, dictSet, hk, hk2, Ne.symm h, ih]

theorem dictGet_dictDel_self {α : Type} (l : List (String × α)) (key : String) :
    dictGet (dictDel l key) key = none := by
  induction l with
  | nil => rfl
  | cons p rest ih =>
      obtain ⟨k, w⟩ := p
      by_cases h : k = key <;> simp [dictGet, dictDel, h, ih]

theorem dictGet_dictDel_other {α : Type} (l : List (String × α)) {key key2 : String}
    (h : key2 ≠ key) : dictGet (dictDel l key2) key = dictGet l key := by
  induction l with
  | nil => rfl
  | cons p rest ih =>
      obtain ⟨k, w⟩ := p
      by_cases hk : k = key2
      · subst hk; simp [dictGet, dictDel, h, ih]
      · by_cases hk2 : k = key <;>
          simp [dictGet, dictDel, hk, hk2, Ne.symm h, ih]

theorem dictKeys_dictSet {α : Type} (l : List (String × α)) (key : String) (v : α) :
    dictKeys (dictSet l key v) = dictKeys l := by
  induction l with
  | nil => rfl
  | cons p rest ih =>
      obtain ⟨k, w⟩ := p
      by_cases h : k = key <;> simp [dictKeys, dictSet, h] <;>
        simpa [dictKeys] using ih

theorem mem_of_dictGet {α : Type} {l : List (String × α)} {key : String} {v : α}
    (h : dictGet l key = some v) : (key, v) ∈ l := by
  induction l with
  | nil => simp [dictGet] at h
  | cons p rest ih =>
      obtain ⟨k, w⟩ := p
      by_cases hk : k = key
      · subst hk
        simp [dictGet] at h
        simp [h]
      · simp [dictGet, hk] at h
        exact List.mem_cons_of_mem _ (ih h)

theorem mem_keys_of_dictGet {α : Type} {l : List (String × α)} {key : String} {v : α}
    (h : dictGet l key = some v) : key ∈ dictKeys l := by
  have := mem_of_dictGet h
  exact List.mem_map_of_mem Prod.fst this

theorem dictGet_isSome_of_mem_keys {α : Type} {l : List (String × α)} {key : String}
    (h : key ∈ dictKeys l) : ∃ v, dictGet l key = some v := by
  induction l with
  | nil => simp [dictKeys] at h
  | cons p rest ih =>
      obtain ⟨k, w⟩ := p
      by_cases hk : k = key
      · exact ⟨w, by simp [dictGet, hk]⟩
      · simp [dictKeys] at h
        rcases h with h | h
        · exact absurd h.symm hk
        · simpa [dictGet, hk] using ih (by simpa [dictKeys] using h)

theorem dictGet_append_last {α : Type} {l : List (String × α)} {key : String}
    (h : dictGet l key = none) (v : α) : dictGet (l ++ [(key, v)]) key = some v := by
  induction l with
  | nil => simp [dictGet]
  | cons p rest ih =>
      obtain ⟨k, w⟩ := p
      by_cases hk : k = key
      · simp [dictGet, hk] at h
      · simp [dictGet, hk] at h ⊢
        exact ih h

theorem dictSet_append_last {α : Type} {l : List (String × α)} {key : String}
    (h : dictGet l key = none) (v : α) :
    dictSet (l ++ [(key, v)]) key v = l ++ [(key, v)] := by
  induction l with
  | nil => simp [dictSet]
  | cons p rest ih =>
      obtain ⟨k, w⟩ := p
      by_cases hk : k = key
      · simp [dictGet, hk] at h
      · simp [dictGet, hk] at h
        simp [dictSet, hk, ih h]

theorem dictSet_dictSet {α : Type} (l : List (String × α)) (key : String) (v : α) :
    dictSet (dictSet l key v) key v = dictSet l key v := by
  induction l with
  | nil => rfl
  | cons p rest ih =>
      obtain ⟨k, w⟩ := p
      by_cases h : k = key <;> simp [dictSet, h, ih]

/-!
Price fetcher (`get_steam_price`, src/main.py lines 107-145).

Python evaluates `price_info["final"] / 100` with `/` on two integers,
which is float true division: both operands are converted to IEEE-754
binary64 and the quotient is rounded to nearest, ties to even.  The model
`floatDivNat a b` below computes that rounded quotient as the rational
value of the resulting double, for operands in the normal range (which
covers every realistic minor-unit amount; overflow and subnormals are not
modelled).  `exactDiv100` is the exact conversion that the specification
asks for, used to compare the two.
-/

/-- Fuel-bounded base-2 logarithm on naturals (`log2fuel n n` is exact for
positive `n`: the largest `k` with `2 ^ k ≤ n`). -/
def log2fuel : ℕ → ℕ → ℕ
  | 0, _ => 0
  | fuel + 1, n => if n < 2 then 0 else log2fuel fuel (n / 2) + 1

/-- Largest `k` with `2 ^ k ≤ n` (0 for `n = 0`). -/
def natLog2 (n : ℕ) : ℕ := log2fuel n n

/-- Decides `2 ^ e ≤ a / b` over the rationals using integer arithmetic. -/
def le2pow (a b : ℕ) (e : ℤ) : Bool :=
  if 0 ≤ e then decide (b * 2 ^ e.toNat ≤ a) else decide (b ≤ a * 2 ^ (-e).toNat)

/-- Binary exponent of the positive rational `a / b`: the unique `e` with
`2 ^ e ≤ a / b < 2 ^ (e + 1)`. -/
def floatDivIntExp (a b : ℕ) : ℤ :=
  let e0 : ℤ := (natLog2 a : ℤ) - (natLog2 b : ℤ)
  if le2pow a b (e0 + 1) then e0 + 1
  else if ¬ le2pow a b e0 then e0 - 1
  else e0

/-- Rounds the quotient `A / B` to the nearest integer, ties to even. -/
def roundHalfEvenDiv (A B : ℕ) : ℕ :=
  let q := A / B
  let r := A % B
  if 2 * r < B then q
  else if B < 2 * r then q + 1
  else if q % 2 = 0 then q else q + 1

/-- Value of the IEEE-754 binary64 double nearest to `a / b` (round to
nearest, ties to even, 53-bit significand; normal range only). -/
def floatDivNat (a b : ℕ) : ℚ :=
  if a = 0 ∨ b = 0 then 0
  else
    let e := floatDivIntExp a b
    if 52 ≤ e then
      (roundHalfEvenDiv a (b * 2 ^ (e - 52).toNat) : ℚ) * 2 ^ (e - 52).toNat
    else
      (roundHalfEvenDiv (a * 2 ^ (52 - e).toNat) b : ℚ) / 2 ^ (52 - e).toNat

/-- Python's `n / 100` on a non-negative int `n`: float true division,
i.e. the binary64 double nearest to `n / 100`.  This is the conversion the
source performs on `price_info["final"]` and `price_info["initial"]`. -/
def pythonTrueDiv100 (n : ℕ) : ℚ := floatDivNat n 100

/-- The exact minor-unit conversion demanded by the specification. -/
def exactDiv100 (n : ℕ) : ℚ := (n : ℚ) / 100

/-- The upstream `price_overview` JSON object. -/
structure PriceOverview where
  final : ℕ
  initial : ℕ
  discount_percent : ℤ
  currency : String
  deriving DecidableEq

/-- The upstream per-app `data` object: `is_free` plus an optional
`price_overview` (absent for e.g. unreleased games). -/
structure SteamAppData where
  is_free : Bool
  price_overview : Option PriceOverview
  deriving DecidableEq

/-- The upstream response for one appid: `{success: bool, data: ...}`. -/
structure SteamAppResp where
  success : Bool
  data : SteamAppData
  deriving DecidableEq

/-- The dict returned by `get_steam_price` on success. -/
structure PriceData where
  is_free : Bool
  current_price : ℚ
  original_price : ℚ
  discount : ℤ
  currency : String
  deriving DecidableEq

/-- Embeds `get_steam_price` (src/main.py lines 107-145): `resp = none`
models a missing/"not found" appid entry (and transport failure, both of
which make the Python function return `None`); unsuccessful responses and
missing `price_overview` also yield `None`; free games yield the fixed
`{0, 0, 100, "FREE"}` snapshot; otherwise the integer minor units are
converted with Python float division by 100. -/
def get_steam_price (resp : Option SteamAppResp) : Option PriceData :=
  match resp with
  | none => none
  | some r =>
    if !r.success then none
    else if r.data.is_free then some ⟨true, 0, 0, 100, "FREE"⟩
    else
      match r.data.price_overview with
      | none => none
      | some p =>
          some ⟨false, pythonTrueDiv100 p.final, pythonTrueDiv100 p.initial,
                p.discount_percent, p.currency⟩

/-!
Monitor engine (`monitor_prices`, src/main.py lines 147-224).

One cycle snapshots the monitor list, and for each tracked game fetches a
price; a failed fetch skips the game; a first observation writes the
baseline and yields nothing; a changed price rewrites the stored fields and
yields one event per subscriber; an unchanged price does nothing.  Fetch
outcomes for the cycle are abstracted as a function from game id to
`Option PriceData` — exactly the possible results of `get_steam_price`.
The per-game message components are modelled structurally (the same data
the Python code interpolates into its `Comp.Plain` texts).
-/

/-- Fetch outcomes for one cycle, per game id. -/
abbrev PriceFetch := String → Option PriceData

/-- One message component: the `Comp.Plain` texts built by `monitor_prices`
(kept structurally: headline, detail line, store link) and the `Comp.At`
mention components appended by `run_monitor_prices`. -/
inductive MsgComp where
  | plainFree (name : String)
  | plainUp (name : String) (delta : ℚ)
  | plainDown (name : String) (shown : ℚ)
  | plainDetail (before after original : ℚ) (discount : ℤ)
  | plainLink (appid : String)
  | atMention (qq : String)
  deriving DecidableEq

/-- One tuple yielded by the `monitor_prices` generator:
`(target_type, target_id, at_members, msg_components)`. -/
structure NotifyEvent where
  target_type : String
  target_id : String
  at_members : List String
  msg : List MsgComp
  deriving DecidableEq

/-- The `msg_components` list built for one changed game (lines 192-202):
headline (free / price up by `delta` / price down, shown as `-delta`),
then the before/after/original/discount detail line, then the store link. -/
def msgComponents (gid : String) (info : GameInfo) (pd : PriceData) (lp : ℚ) :
    List MsgComp :=
  (if pd.is_free then [MsgComp.plainFree info.name]
   else if 0 < pd.current_price - lp then
     [MsgComp.plainUp info.name (pd.current_price - lp)]
   else if pd.current_price - lp < 0 then
     [MsgComp.plainDown info.name (lp - pd.current_price)]
   else []) ++
  [MsgComp.plainDetail lp pd.current_price pd.original_price pd.discount,
   MsgComp.plainLink gid]

/-- The event yielded for one subscriber of a changed game (lines 215-222):
individual subscribers get a `"user"` tuple with no mentions, group
subscribers a `"group"` tuple mentioning the group's `member_ids`. -/
def mkEvent (gid : String) (info : GameInfo) (pd : PriceData) (lp : ℚ) :
    Subscriber → NotifyEvent
  | .user uid => ⟨"user", uid, [], msgComponents gid info pd lp⟩
  | .group g members => ⟨"group", g, members, msgComponents gid info pd lp⟩

/-- The price fields written back to a game's record (lines 178-180 and
205-207): `last_price`, `original_price`, `discount` from the snapshot. -/
def updateEntry (info : GameInfo) (pd : PriceData) : GameInfo :=
  { info with
      last_price := some pd.current_price
      original_price := some pd.original_price
      discount := some pd.discount }

/-- Events yielded while processing one game of the snapshot: none on fetch
failure, none on first observation, none on an unchanged price, one per
subscriber on a changed price. -/
def gameEvents (f : PriceFetch) (gid : String) (info : GameInfo) :
    List NotifyEvent :=
  match f gid with
  | none => []
  | some pd =>
    match info.last_price with
    | none => []
    | some lp =>
        if pd.current_price - lp ≠ 0 then
          info.subscribers.map (mkEvent gid info pd lp)
        else []

/-- Store mutation performed while processing one game: write the fetched
fields on first observation or on a changed price, otherwise no write. -/
def processGameStore (f : PriceFetch) (st : MonitorList) (gid : String)
    (info : GameInfo) : MonitorList :=
  match f gid with
  | none => st
  | some pd =>
    match info.last_price with
    | none => dictSet st gid (updateEntry info pd)
    | some lp =>
        if pd.current_price - lp ≠ 0 then dictSet st gid (updateEntry info pd)
        else st

/-- The `for game_id, game_info in games_to_check` loop: `l` is the
snapshot being iterated (whose records the loop body reads), `st` the
evolving document that each mutation rewrites wholesale. -/
def monitorLoop (f : PriceFetch) :
    List (String × GameInfo) → MonitorList → MonitorList × List NotifyEvent
  | [], st => (st, [])
  | (gid, info) :: rest, st =>
      let st1 := processGameStore f st gid info
      let r := monitorLoop f rest st1
      (r.1, gameEvents f gid info ++ r.2)

/-- One full `monitor_prices` cycle over the document `s` with fetch
outcomes `f`: returns the final persisted document and the yielded events
in order. -/
def monitor_prices (s : MonitorList) (f : PriceFetch) :
    MonitorList × List NotifyEvent :=
  monitorLoop f s s

/-- Whether an event's message carries the store link of game `gid` (each
event's message carries exactly the link of the game it was yielded for). -/
def eventMentionsGame (gid : String) (e : NotifyEvent) : Bool :=
  decide (MsgComp.plainLink gid ∈ e.msg)

/-- The price delta carried by an event's detail line: `after - before`. -/
def eventDelta (e : NotifyEvent) : Option ℚ :=
  e.msg.findSome? fun c =>
    match c with
    | MsgComp.plainDetail before after _ _ => some (after - before)
    | _ => none

theorem processGameStore_get_other (f : PriceFetch) (st : MonitorList)
    {k gid : String} (i : GameInfo) (hk : k ≠ gid) :
    dictGet (processGameStore f st k i) gid = dictGet st gid := by
  unfold processGameStore
  cases hf : f k with
  | none => rfl
  | some pd =>
      cases hlp : i.last_price with
      | none => simp [dictGet_dictSet_other _ _ hk]
      | some lp =>
          by_cases hc : pd.current_price - lp ≠ 0 <;>
            simp [hc, dictGet_dictSet_other _ _ hk]

theorem processGameStore_keys (f : PriceFetch) (st : MonitorList)
    (k : String) (i : GameInfo) :
    dictKeys (processGameStore f st k i) = dictKeys st := by
  unfold processGameStore
  cases hf : f k with
  | none => rfl
  | some pd =>
      cases hlp : i.last_price with
      | none => simp [dictKeys_dictSet]
      | some lp =>
          by_cases hc : pd.current_price - lp ≠ 0 <;> simp [hc, dictKeys_dictSet]

theorem monitorLoop_get_notmem (f : PriceFetch) {gid : String} :
    ∀ (l : List (String × GameInfo)) (st : MonitorList), gid ∉ dictKeys l →
      dictGet (monitorLoop f l st).1 gid = dictGet st gid := by
  intro l
  induction l with
  | nil => intro st _; rfl
  | cons p rest ih =>
      intro st h
      obtain ⟨k, i⟩ := p
      simp [dictKeys] at h
      obtain ⟨h1, h2⟩ := h
      simp only [monitorLoop]
      rw [ih _ (by simpa [dictKeys] using h2)]
      exact processGameStore_get_other f st i (Ne.symm h1)

theorem monitorLoop_get_main (f : PriceFetch) {gid : String} {info : GameInfo}
    (newInfo : GameInfo)
    (hstep : ∀ st, processGameStore f st gid info = dictSet st gid newInfo) :
    ∀ (l : List (String × GameInfo)) (st : MonitorList),
      (dictKeys l).Nodup → (gid, info) ∈ l → gid ∈ dictKeys st →
      dictGet (monitorLoop f l st).1 gid = some newInfo := by
  intro l
  induction l with
  | nil => intro st _ hm _; simp at hm
  | cons p rest ih =>
      intro st hnd hm hst
      obtain ⟨k, i⟩ := p
      have hnd' : (dictKeys rest).Nodup ∧ k ∉ dictKeys rest := by
        have h2 := hnd
        simp only [dictKeys, List.map_cons, List.nodup_cons] at h2
        refine ⟨h2.2, fun hmem => ?_⟩
        rcases List.mem_map.mp hmem with ⟨⟨a, b⟩, hab, hfst⟩
        cases hfst
        exact h2.1 (List.mem_map_of_mem Prod.fst hab)
      rcases List.mem_cons.mp hm with heq | hmem
      · obtain ⟨hk, hi⟩ := Prod.mk.inj heq.symm
        subst hk; subst hi
        simp only [monitorLoop]
        rw [monitorLoop_get_notmem f rest _ hnd'.2]
        rw [hstep st, dictGet_dictSet_self]
        obtain ⟨v, hv⟩ := dictGet_isSome_of_mem_keys hst
        simp [hv]
      · have hgr : gid ∈ dictKeys rest := List.mem_map_of_mem Prod.fst hmem
        have hk : k ≠ gid := fun h => hnd'.2 (h ▸ hgr)
        simp only [monitorLoop]
        exact ih _ hnd'.1 hmem
          (by rw [processGameStore_keys]; exact hst)

theorem eventMentionsGame_mkEvent (gid k : String) (info : GameInfo)
    (pd : PriceData) (lp : ℚ) (sub : Subscriber) :
    eventMentionsGame gid (mkEvent k info pd lp sub) = decide (gid = k) := by
  cases sub <;>
    · simp only [eventMentionsGame, mkEvent, msgComponents]
      rw [decide_eq_decide]
      split_ifs <;> simp

theorem eventDelta_mkEvent (gid : String) (info : GameInfo) (pd : PriceData)
    (lp : ℚ) (sub : Subscriber) :
    eventDelta (mkEvent gid info pd lp sub) = some (pd.current_price - lp) := by
  cases sub <;>
    · simp only [eventDelta, mkEvent, msgComponents]
      split_ifs <;> simp [List.findSome?]

theorem mem_gameEvents {f : PriceFetch} {gid : String} {info : GameInfo}
    {e : NotifyEvent} (he : e ∈ gameEvents f gid info) :
    ∃ pd lp sub, sub ∈ info.subscribers ∧ e = mkEvent gid info pd lp sub := by
  unfold gameEvents at he
  split at he
  · simp at he
  · split at he
    · simp at he
    · split at he
      · obtain ⟨sub, hs, rfl⟩ := List.mem_map.mp he
        exact ⟨_, _, sub, hs, rfl⟩
      · simp at he

theorem filter_gameEvents_self (f : PriceFetch) (gid : String) (info : GameInfo) :
    (gameEvents f gid info).filter (eventMentionsGame gid) = gameEvents f gid info := by
  apply List.filter_eq_self.mpr
  intro e he
  obtain ⟨pd, lp, sub, _, rfl⟩ := mem_gameEvents he
  rw [eventMentionsGame_mkEvent]
  simp

theorem filter_gameEvents_ne (f : PriceFetch) {k gid : String} (hk : k ≠ gid)
    (info : GameInfo) :
    (gameEvents f k info).filter (eventMentionsGame gid) = [] := by
  rw [List.filter_eq_nil_iff]
  intro e he
  obtain ⟨pd, lp, sub, _, rfl⟩ := mem_gameEvents he
  rw [eventMentionsGame_mkEvent]
  simp [Ne.symm hk]

theorem monitorLoop_events_notmem (f : PriceFetch) {gid : String} :
    ∀ (l : List (String × GameInfo)) (st : MonitorList), gid ∉ dictKeys l →
      ((monitorLoop f l st).2).filter (eventMentionsGame gid) = [] := by
  intro l
  induction l with
  | nil => intro st _; rfl
  | cons p rest ih =>
      intro st h
      obtain ⟨k, i⟩ := p
      simp [dictKeys] at h
      obtain ⟨h1, h2⟩ := h
      simp only [monitorLoop, List.filter_append]
      rw [filter_gameEvents_ne f (Ne.symm h1), ih _ (by simpa [dictKeys] using h2)]
      rfl

theorem monitorLoop_events_main (f : PriceFetch) {gid : String} {info : GameInfo} :
    ∀ (l : List (String × GameInfo)) (st : MonitorList),
      (dictKeys l).Nodup → (gid, info) ∈ l →
      ((monitorLoop f l st).2).filter (eventMentionsGame gid)
        = gameEvents f gid info := by
  intro l
  induction l with
  | nil => intro st _ hm; simp at hm
  | cons p rest ih =>
      intro st hnd hm
      obtain ⟨k, i⟩ := p
      have hnd' : (dictKeys rest).Nodup ∧ k ∉ dictKeys rest := by
        have h2 := hnd
        simp only [dictKeys, List.map_cons, List.nodup_cons] at h2
        refine ⟨h2.2, fun hmem => ?_⟩
        rcases List.mem_map.mp hmem with ⟨⟨a, b⟩, hab, hfst⟩
        cases hfst
        exact h2.1 (List.mem_map_of_mem Prod.fst hab)
      rcases List.mem_cons.mp hm with heq | hmem
      · obtain ⟨hk, hi⟩ := Prod.mk.inj heq.symm
        subst hk; subst hi
        simp only [monitorLoop, List.filter_append]
        rw [filter_gameEvents_self, monitorLoop_events_notmem f rest _ hnd'.2]
        simp
      · have hgr : gid ∈ dictKeys rest := List.mem_map_of_mem Prod.fst hmem
        have hk : k ≠ gid := fun h => hnd'.2 (h ▸ hgr)
        simp only [monitorLoop, List.filter_append]
        rw [filter_gameEvents_ne f hk, ih _ hnd'.1 hmem]
        rfl

/-- Claim C1: for every tracked item with a non-null `last_price` and every
successful fetch whose current price differs from it, one monitor cycle
emits exactly one notification event per subscriber of that item (in
subscriber order), each carrying the price delta `current - last` in its
detail line, and persists the fetched price as the item's new `last_price`
(together with `original_price` and `discount`). -/
theorem monitor_delta_notifies_per_subscriber
    (s : MonitorList) (f : PriceFetch) (gid : String) (info : GameInfo)
    (lp : ℚ) (pd : PriceData)
    (hnd : (dictKeys s).Nodup)
    (hs : dictGet s gid = some info)
    (hlp : info.last_price = some lp)
    (hf : f gid = some pd)
    (hne : pd.current_price ≠ lp) :
    dictGet (monitor_prices s f).1 gid = some (updateEntry info pd) ∧
    ((monitor_prices s f).2).filter (eventMentionsGame gid)
      = info.subscribers.map (mkEvent gid info pd lp) ∧
    ∀ e ∈ info.subscribers.map (mkEvent gid info pd lp),
      eventDelta e = some (pd.current_price - lp) := by
  have hsub : pd.current_price - lp ≠ 0 := sub_ne_zero.mpr hne
  have hstep : ∀ st, processGameStore f st gid info
      = dictSet st gid (updateEntry info pd) := by
    intro st
    simp [processGameStore, hf, hlp, hsub]
  have hmem : (gid, info) ∈ s := mem_of_dictGet hs
  have hkey : gid ∈ dictKeys s := mem_keys_of_dictGet hs
  refine ⟨?_, ?_, ?_⟩
  · exact monitorLoop_get_main f (updateEntry info pd) hstep s s hnd hmem hkey
  · have h := monitorLoop_events_main f s s hnd hmem
    rw [monitor_prices, h]
    simp [gameEvents, hf, hlp, hsub]
  · intro e he
    obtain ⟨sub, _, rfl⟩ := List.mem_map.mp he
    exact eventDelta_mkEvent gid info pd lp sub

def infoC1 : GameInfo :=
  ⟨"Celeste", "1", "cn", some 100, some 150, some 0, [Subscriber.user "u"]⟩

def storeC1 : MonitorList := [("1", infoC1)]

def pdC1 : PriceData := ⟨false, 80, 150, 47, "CNY"⟩

def fetchC1 : PriceFetch := fun gid => if gid = "1" then some pdC1 else none

/-- Witness for C1, at the specification's own example: `last_price` 100,
fetched price 80, one individual subscriber: the cycle produces exactly one
event, with delta `-20`, and persists 80. -/
theorem monitor_delta_notifies_per_subscriber_witness :
    dictGet (monitor_prices storeC1 fetchC1).1 "1" = some (updateEntry infoC1 pdC1) ∧
    ((monitor_prices storeC1 fetchC1).2).filter (eventMentionsGame "1")
      = [mkEvent "1" infoC1 pdC1 100 (Subscriber.user "u")] ∧
    eventDelta (mkEvent "1" infoC1 pdC1 100 (Subscriber.user "u")) = some (-20) := by
  have h := monitor_delta_notifies_per_subscriber storeC1 fetchC1 "1" infoC1 100 pdC1
    (by simp [storeC1, dictKeys]) rfl rfl rfl (by norm_num [pdC1])
  refine ⟨h.1, ?_, ?_⟩
  · rw [h.2.1]; rfl
  · have h3 := h.2.2 (mkEvent "1" infoC1 pdC1 100 (Subscriber.user "u"))
      (by simp [infoC1])
    rw [h3]
    norm_num [pdC1]

/-- Claim C2: for every tracked item whose `last_price` is null, one
monitor cycle with a successful fetch writes the fetched price fields as
the baseline (`last_price`, `original_price`, `discount`) and emits zero
notification events for that item. -/
theorem monitor_first_observation_silent
    (s : MonitorList) (f : PriceFetch) (gid : String) (info : GameInfo)
    (pd : PriceData)
    (hnd : (dictKeys s).Nodup)
    (hs : dictGet s gid = some info)
    (hlp : info.last_price = none)
    (hf : f gid = some pd) :
    dictGet (monitor_prices s f).1 gid = some (updateEntry info pd) ∧
    ((monitor_prices s f).2).filter (eventMentionsGame gid) = [] := by
  have hstep : ∀ st, processGameStore f st gid info
      = dictSet st gid (updateEntry info pd) := by
    intro st
    simp [processGameStore, hf, hlp]
  have hmem : (gid, info) ∈ s := mem_of_dictGet hs
  have hkey : gid ∈ dictKeys s := mem_keys_of_dictGet hs
  refine ⟨?_, ?_⟩
  · exact monitorLoop_get_main f (updateEntry info pd) hstep s s hnd hmem hkey
  · have h := monitorLoop_events_main f s s hnd hmem
    rw [monitor_prices, h]
    simp [gameEvents, hf, hlp]

def infoC2 : GameInfo :=
  ⟨"Hades", "2", "cn", none, none, none, [Subscriber.group "g" ["a", "b"]]⟩

def storeC2 : MonitorList := [("2", infoC2)]

def pdC2 : PriceData := ⟨false, 48, 96, 50, "CNY"⟩

def fetchC2 : PriceFetch := fun gid => if gid = "2" then some pdC2 else none

/-- Witness for C2: a never-observed item with a group subscriber gets its
baseline written and no event is emitted for it. -/
theorem monitor_first_observation_silent_witness :
    dictGet (monitor_prices storeC2 fetchC2).1 "2" = some (updateEntry infoC2 pdC2) ∧
    ((monitor_prices storeC2 fetchC2).2).filter (eventMentionsGame "2") = [] := by
  exact monitor_first_observation_silent storeC2 fetchC2 "2" infoC2 pdC2
    (by simp [storeC2, dictKeys]) rfl rfl rfl

/-!
Notification dispatcher (`run_monitor_prices`, src/main.py lines 226-259).

The wrapper iterates the events yielded by `monitor_prices` and sends one
message per event.  Crucially, in the source every event of one game
carries the SAME `msg_components` list object, and the group branch
appends `Comp.At(...)` mention components to that shared object before
sending.  The model therefore threads an explicit shared component list
through the dispatch of one game's events: `dispatchLoop shared evs`
returns the messages actually delivered, where a group event first extends
the shared list with its mentions and then delivers the extended list, and
a user event delivers the shared list as it currently stands. -/

/-- One delivered message: target kind, target id, and the component list
passed to the host's send primitive. -/
structure Delivered where
  target_type : String
  target_id : String
  msg : List MsgComp
  deriving DecidableEq

/-- The dispatch loop body over one game's events, threading the shared
mutable `msg_components` object (lines 231-256): events with an empty
target or empty message are skipped; `"user"` events deliver the shared
list as-is; `"group"` events append one `Comp.At` per member id to the
shared list and deliver it; anything else sends nothing. -/
def dispatchLoop (shared : List MsgComp) : List NotifyEvent → List Delivered
  | [] => []
  | e :: rest =>
      if e.target_id = "" ∨ e.msg = [] then dispatchLoop shared rest
      else if e.target_type = "user" then
        ⟨"user", e.target_id, shared⟩ :: dispatchLoop shared rest
      else if e.target_type = "group" then
        (fun shared2 => ⟨"group", e.target_id, shared2⟩ :: dispatchLoop shared2 rest)
          (shared ++ e.at_members.map MsgComp.atMention)
      else dispatchLoop shared rest

/-- Dispatch of one game's events: the shared object starts as the
`msg_components` list that `monitor_prices` built for the game, which is
the `msg` field of every one of its events. -/
def dispatchGame : List NotifyEvent → List Delivered
  | [] => []
  | e :: rest => dispatchLoop e.msg (e :: rest)

/-- Iteration of the whole cycle: games in document order, each game's
events sharing one component list. -/
def runLoop (f : PriceFetch) : List (String × GameInfo) → List Delivered
  | [] => []
  | (gid, info) :: rest => dispatchGame (gameEvents f gid info) ++ runLoop f rest

/-- The messages delivered by one `run_monitor_prices` cycle over document
`s` with fetch outcomes `f`. -/
def run_monitor_prices (s : MonitorList) (f : PriceFetch) : List Delivered :=
  runLoop f s

/-- The ids explicitly mentioned (`Comp.At`) in a delivered message. -/
def mentionsOf (d : Delivered) : List String :=
  d.msg.filterMap fun c =>
    match c with
    | MsgComp.atMention q => some q
    | _ => none

def infoC9 : GameInfo :=
  ⟨"Terraria", "3", "cn", some 100, some 100, some 0,
   [Subscriber.group "g1" ["a"], Subscriber.group "g2" ["b"]]⟩

def storeC9 : MonitorList := [("3", infoC9)]

def pdC9 : PriceData := ⟨false, 80, 100, 20, "CNY"⟩

def fetchC9 : PriceFetch := fun gid => if gid = "3" then some pdC9 else none

/-- Claim C9 is violated by the code: with two group subscribers on one
item (`g1` mentioning `a`, `g2` mentioning `b`), the events carry mention
lists `["a"]` and `["b"]`, but because both events share one mutable
`msg_components` object the second delivered message mentions `a` AND `b`:
the first group's `Comp.At("a")` leaks into the second group's message. -/
theorem run_monitor_prices_mention_leak :
    ((run_monitor_prices storeC9 fetchC9).map mentionsOf = [["a"], ["a", "b"]]) ∧
    (gameEvents fetchC9 "3" infoC9).map NotifyEvent.at_members = [["a"], ["b"]] := by
  constructor
  · norm_num [run_monitor_prices, runLoop, dispatchGame, dispatchLoop, gameEvents,
      mkEvent, msgComponents, mentionsOf, storeC9, fetchC9, infoC9, pdC9,
      List.filterMap]
    decide
  · norm_num [gameEvents, mkEvent, msgComponents, fetchC9, infoC9, pdC9]

/-!
Subscribe (`steamremind_command`, src/main.py lines 288-334, the part after
name resolution).  Under the store lock the command reads the document,
inserts a fresh record if the game is untracked, then walks the game's
subscriber list: in a group chat, a matching group entry either reports
"already subscribed" (sender in `member_ids`) or appends the sender to
`member_ids`; in a private chat, a matching user entry reports "already
subscribed"; if no entry matches, a fresh subscriber entry is appended.
Finally the document is written back.
-/

/-- The user-visible outcome of one subscribe command. -/
inductive SubResult where
  | alreadyInGroup
  | addedToGroup
  | newGroupSub
  | alreadyUser
  | newUserSub
  deriving DecidableEq

/-- The fresh subscriber entry appended on a brand-new subscription
(line 327 for groups, line 330 for individuals). -/
def newSubscriber (sender : String) : Option String → Subscriber
  | some g => Subscriber.group g [sender]
  | none => Subscriber.user sender

/-- The `for sub_info in monitor_list[game_id]["subscribers"]` loop of
lines 308-324: returns `some (updated list, outcome)` as soon as an entry
matches the acting context (`gctx = some g` in a group chat, `none` in a
private chat), `none` if the loop falls through without a match. -/
def subscribeSubs (sender : String) (gctx : Option String) :
    List Subscriber → Option (List Subscriber × SubResult)
  | [] => none
  | sub :: rest =>
      match gctx, sub with
      | some g, Subscriber.group id members =>
          if id = g then
            if sender ∈ members then
              some (Subscriber.group id members :: rest, SubResult.alreadyInGroup)
            else
              some (Subscriber.group id (members ++ [sender]) :: rest,
                    SubResult.addedToGroup)
          else (subscribeSubs sender (some g) rest).map fun p => (sub :: p.1, p.2)
      | none, Subscriber.user id =>
          if id = sender then
            some (Subscriber.user id :: rest, SubResult.alreadyUser)
          else (subscribeSubs sender none rest).map fun p => (sub :: p.1, p.2)
      | _, _ => (subscribeSubs sender gctx rest).map fun p => (sub :: p.1, p.2)

/-- The subscriber-list update of one subscribe command: the loop's result
if some entry matched, otherwise the fresh entry appended (lines 325-331). -/
def applySubs (sender : String) (gctx : Option String) (subs : List Subscriber) :
    List Subscriber × SubResult :=
  match subscribeSubs sender gctx subs with
  | some r => r
  | none =>
      (subs ++ [newSubscriber sender gctx],
       match gctx with
       | some _ => SubResult.newGroupSub
       | none => SubResult.newUserSub)

/-- The fresh record created for a previously untracked game
(lines 296-305): all price fields null, no subscribers yet. -/
def freshInfo (gname gid region : String) : GameInfo :=
  ⟨gname, gid, region, none, none, none, []⟩

/-- One whole subscribe command on document `s` for game `gid` named
`gname`: returns the persisted document and the reported outcome. -/
def subscribe (s : MonitorList) (gid gname region sender : String)
    (gctx : Option String) : MonitorList × SubResult :=
  match dictGet s gid with
  | some info =>
      (fun r => (dictSet s gid { info with subscribers := r.1 }, r.2))
        (applySubs sender gctx info.subscribers)
  | none =>
      (fun r =>
        (s ++ [(gid, { freshInfo gname gid region with subscribers := r.1 })], r.2))
        (applySubs sender gctx (freshInfo gname gid region).subscribers)

/-- The "already subscribed" outcome reported in the acting context. -/
def alreadyOf : Option String → SubResult
  | some _ => SubResult.alreadyInGroup
  | none => SubResult.alreadyUser

/-- Whether an outcome is a rejected duplicate ("already subscribed"). -/
def isAlready : SubResult → Bool
  | SubResult.alreadyInGroup => true
  | SubResult.alreadyUser => true
  | _ => false

theorem subscribeSubs_newSubscriber (sender : String) (gctx : Option String) :
    subscribeSubs sender gctx [newSubscriber sender gctx]
      = some ([newSubscriber sender gctx], alreadyOf gctx) := by
  cases gctx <;> simp [subscribeSubs, newSubscriber, alreadyOf]

theorem subscribeSubs_none_append (sender : String) (gctx : Option String) :
    ∀ subs, subscribeSubs sender gctx subs = none →
      subscribeSubs sender gctx (subs ++ [newSubscriber sender gctx])
        = some (subs ++ [newSubscriber sender gctx], alreadyOf gctx) := by
  intro subs
  induction subs with
  | nil => intro _; simpa using subscribeSubs_newSubscriber sender gctx
  | cons sub rest ih =>
      intro h
      cases gctx with
      | none =>
          cases sub with
          | user id =>
              by_cases hid : id = sender
              · simp [subscribeSubs, hid] at h
              · simp only [subscribeSubs, if_neg hid, Option.map_eq_none'] at h
                simp [subscribeSubs, hid, ih h]
          | group i m =>
              simp only [subscribeSubs, Option.map_eq_none'] at h
              simp [subscribeSubs, ih h]
      | some g =>
          cases sub with
          | user id =>
              simp only [subscribeSubs, Option.map_eq_none'] at h
              simp [subscribeSubs, ih h]
          | group id m =>
              by_cases hid : id = g
              · by_cases hm : sender ∈ m <;> simp [subscribeSubs, hid, hm] at h
              · simp only [subscribeSubs, if_neg hid, Option.map_eq_none'] at h
                simp [subscribeSubs, hid, ih h]

theorem subscribeSubs_some_already (sender : String) (gctx : Option String) :
    ∀ subs l r, subscribeSubs sender gctx subs = some (l, r) →
      subscribeSubs sender gctx l = some (l, alreadyOf gctx) := by
  intro subs
  induction subs with
  | nil => intro l r h; simp [subscribeSubs] at h
  | cons sub rest ih =>
      intro l r h
      cases gctx with
      | none =>
          cases sub with
          | user id =>
              by_cases hid : id = sender
              · simp only [subscribeSubs, if_pos hid] at h
                obtain ⟨rfl, rfl⟩ := Prod.mk.inj (Option.some.inj h)
                simp [subscribeSubs, hid, alreadyOf]
              · simp only [subscribeSubs, if_neg hid, Option.map_eq_some'] at h
                obtain ⟨⟨l2, r2⟩, hrec, heq⟩ := h
                obtain ⟨rfl, rfl⟩ := Prod.mk.inj heq
                simp [subscribeSubs, hid, ih _ _ hrec]
          | group i m =>
              simp only [subscribeSubs, Option.map_eq_some'] at h
              obtain ⟨⟨l2, r2⟩, hrec, heq⟩ := h
              obtain ⟨rfl, rfl⟩ := Prod.mk.inj heq
              simp [subscribeSubs, ih _ _ hrec]
      | some g =>
          cases sub with
          | user id =>
              simp only [subscribeSubs, Option.map_eq_some'] at h
              obtain ⟨⟨l2, r2⟩, hrec, heq⟩ := h
              obtain ⟨rfl, rfl⟩ := Prod.mk.inj heq
              simp [subscribeSubs, ih _ _ hrec]
          | group id m =>
              by_cases hid : id = g
              · by_cases hm : sender ∈ m
                · simp only [subscribeSubs, if_pos hid, if_pos hm] at h
                  obtain ⟨rfl, rfl⟩ := Prod.mk.inj (Option.some.inj h)
                  simp [subscribeSubs, hid, hm, alreadyOf]
                · simp only [subscribeSubs, if_pos hid, if_neg hm] at h
                  obtain ⟨rfl, rfl⟩ := Prod.mk.inj (Option.some.inj h)
                  simp [subscribeSubs, hid, alreadyOf]
              · simp only [subscribeSubs, if_neg hid, Option.map_eq_some'] at h
                obtain ⟨⟨l2, r2⟩, hrec, heq⟩ := h
                obtain ⟨rfl, rfl⟩ := Prod.mk.inj heq
                simp [subscribeSubs, hid, ih _ _ hrec]

theorem applySubs_already (sender : String) (gctx : Option String)
    (subs : List Subscriber) :
    subscribeSubs sender gctx (applySubs sender gctx subs).1
      = some ((applySubs sender gctx subs).1, alreadyOf gctx) := by
  unfold applySubs
  cases h : subscribeSubs sender gctx subs with
  | none => simpa using subscribeSubs_none_append sender gctx subs h
  | some r =>
      obtain ⟨l, rr⟩ := r
      simpa using subscribeSubs_some_already sender gctx subs l rr h

theorem applySubs_idem (sender : String) (gctx : Option String)
    (subs : List Subscriber) :
    applySubs sender gctx (applySubs sender gctx subs).1
      = ((applySubs sender gctx subs).1, alreadyOf gctx) := by
  rw [applySubs.eq_def, applySubs_already]

/-- Claim C10: subscribing the same (actor, item) pair twice is idempotent.
After any first subscribe, a second subscribe by the same sender in the
same context (individual, or group member already in the group entry's
`member_ids`) leaves the persisted document completely unchanged — in
particular the item's subscriber set keeps its size — and reports the
"already subscribed" outcome instead of adding a duplicate entry. -/
theorem subscribe_duplicate_rejected
    (s : MonitorList) (gid gname region sender : String) (gctx : Option String) :
    subscribe (subscribe s gid gname region sender gctx).1 gid gname region sender gctx
      = ((subscribe s gid gname region sender gctx).1, alreadyOf gctx) ∧
    isAlready (alreadyOf gctx) = true := by
  refine ⟨?_, by cases gctx <;> rfl⟩
  cases h : dictGet s gid with
  | some info =>
      have hs1 : subscribe s gid gname region sender gctx
          = (dictSet s gid
               { info with subscribers := (applySubs sender gctx info.subscribers).1 },
             (applySubs sender gctx info.subscribers).2) := by
        simp only [subscribe, h]
      have h2 : dictGet
          (dictSet s gid
            { info with subscribers := (applySubs sender gctx info.subscribers).1 }) gid
          = some { info with subscribers := (applySubs sender gctx info.subscribers).1 } := by
        rw [dictGet_dictSet_self, h]; rfl
      rw [hs1]
      simp only [subscribe, h2]
      have h3 : applySubs sender gctx
          ({ info with subscribers := (applySubs sender gctx info.subscribers).1 } :
            GameInfo).subscribers
          = ((applySubs sender gctx info.subscribers).1, alreadyOf gctx) :=
        applySubs_idem sender gctx info.subscribers
      rw [h3]
      rw [dictSet_dictSet]
  | none =>
      have hs1 : subscribe s gid gname region sender gctx
          = (s ++ [(gid, { freshInfo gname gid region with
                            subscribers := (applySubs sender gctx []).1 })],
             (applySubs sender gctx []).2) := by
        simp only [subscribe, h]
        rfl
      have h2 : dictGet
          (s ++ [(gid, { freshInfo gname gid region with
                          subscribers := (applySubs sender gctx []).1 })]) gid
          = some { freshInfo gname gid region with
                    subscribers := (applySubs sender gctx []).1 } :=
        dictGet_append_last h _
      rw [hs1]
      simp only [subscribe, h2]
      have h3 : applySubs sender gctx
          ({ freshInfo gname gid region with
              subscribers := (applySubs sender gctx []).1 } : GameInfo).subscribers
          = ((applySubs sender gctx []).1, alreadyOf gctx) :=
        applySubs_idem sender gctx []
      rw [h3]
      rw [dictSet_append_last h]

/-!
Unsubscribe (`steamrmdremove_command`, src/main.py lines 338-413, the part
after name resolution).  Under the store lock the command reads the
document and walks the game's subscriber list building
`updated_subscribers`: in a group chat, the matching group entry has the
sender removed from `member_ids` and is kept only if `member_ids` stays
non-empty; in a private chat, the matching user entry is dropped; all other
entries are kept.  If something was removed the updated list is stored and
the game is deleted outright when its subscriber list became empty.
-/

/-- The user-visible outcome of one unsubscribe command. -/
inductive UnsubResult where
  | removed
  | notSubscribed
  | gameNotFound
  deriving DecidableEq

/-- The `for sub_info in monitor_list[game_id]["subscribers"]` loop of
lines 382-399: returns `(found_and_removed, updated_subscribers)`. -/
def unsubLoop (sender : String) (gctx : Option String) :
    List Subscriber → Bool × List Subscriber
  | [] => (false, [])
  | sub :: rest =>
      (fun r =>
        match gctx, sub with
        | some g, Subscriber.group id members =>
            if id = g then
              if sender ∈ members then
                (fun members2 =>
                  if members2 = ([] : List String) then (true, r.2)
                  else (true, Subscriber.group id members2 :: r.2))
                  (members.erase sender)
              else
                if members = ([] : List String) then (r.1, r.2)
                else (r.1, Subscriber.group id members :: r.2)
            else (r.1, sub :: r.2)
        | none, Subscriber.user id =>
            if id = sender then (true, r.2) else (r.1, sub :: r.2)
        | _, _ => (r.1, sub :: r.2))
        (unsubLoop sender gctx rest)

/-- One whole unsubscribe command on document `s` for game `gid`: the
persisted document and the reported outcome (lines 374-412). -/
def unsubscribe (s : MonitorList) (gid sender : String) (gctx : Option String) :
    MonitorList × UnsubResult :=
  match dictGet s gid with
  | none => (s, UnsubResult.gameNotFound)
  | some info =>
      (fun r =>
        if r.1 then
          if r.2 = ([] : List Subscriber) then (dictDel s gid, UnsubResult.removed)
          else (dictSet s gid { info with subscribers := r.2 }, UnsubResult.removed)
        else (s, UnsubResult.notSubscribed))
        (unsubLoop sender gctx info.subscribers)

/-- Whether `sub` is the acting context's own subscriber entry and the
actor is its only member: the individual entry of the sender in a private
chat, or the acting group's entry whose `member_ids` is exactly the
sender. -/
def soleMatch (sender : String) : Option String → Subscriber → Prop
  | none, Subscriber.user id => id = sender
  | some g, Subscriber.group id members => id = g ∧ members = [sender]
  | _, _ => False

/-- Whether `sub` is a group entry for group `g`. -/
def matchesGroup (g : String) : Subscriber → Bool
  | Subscriber.group id _ => decide (id = g)
  | _ => false

/-- Claim C4: after every unsubscribe the store never retains an item with
an empty subscriber set (the no-orphan invariant is preserved); removing
the last subscriber of an item deletes the item from the store; and
removing the acting group's last member deletes that group entry while the
item survives with its remaining subscribers. -/
theorem unsubscribe_prunes
    (s : MonitorList) (gid sender : String) (gctx : Option String) :
    ((∀ k i, dictGet s k = some i → i.subscribers ≠ []) →
      ∀ k i, dictGet (unsubscribe s gid sender gctx).1 k = some i →
        i.subscribers ≠ []) ∧
    (∀ info sub, dictGet s gid = some info → info.subscribers = [sub] →
      soleMatch sender gctx sub →
      dictGet (unsubscribe s gid sender gctx).1 gid = none) ∧
    (∀ info g other, gctx = some g → dictGet s gid = some info →
      info.subscribers = [Subscriber.group g [sender], other] →
      matchesGroup g other = false →
      dictGet (unsubscribe s gid sender gctx).1 gid
        = some { info with subscribers := [other] }) := by
  refine ⟨?_, ?_, ?_⟩
  · intro hinv k i hk
    cases h : dictGet s gid with
    | none => simp only [unsubscribe, h] at hk; exact hinv k i hk
    | some info =>
        simp only [unsubscribe, h] at hk
        by_cases hr1 : (unsubLoop sender gctx info.subscribers).1
        · by_cases hr2 : (unsubLoop sender gctx info.subscribers).2
              = ([] : List Subscriber)
          · rw [if_pos hr1, if_pos hr2] at hk
            by_cases hkgid : k = gid
            · subst hkgid; rw [dictGet_dictDel_self] at hk; exact absurd hk (by simp)
            · rw [dictGet_dictDel_other _ (Ne.symm hkgid)] at hk
              exact hinv k i hk
          · rw [if_pos hr1, if_neg hr2] at hk
            by_cases hkgid : k = gid
            · subst hkgid
              rw [dictGet_dictSet_self, h] at hk
              simp at hk
              rw [← hk]
              exact hr2
            · rw [dictGet_dictSet_other _ _ (Ne.symm hkgid)] at hk
              exact hinv k i hk
        · rw [if_neg hr1] at hk
          exact hinv k i hk
  · intro info sub h hsubs hmatch
    have hloop : unsubLoop sender gctx [sub] = (true, []) := by
      cases gctx with
      | none =>
          cases sub with
          | user id =>
              have hid : id = sender := hmatch
              simp [unsubLoop, hid]
          | group i m => exact absurd hmatch (by simp [soleMatch])
      | some g =>
          cases sub with
          | user id => exact absurd hmatch (by simp [soleMatch])
          | group id m =>
              obtain ⟨hid, hm⟩ := hmatch
              subst hid; subst hm
              simp [unsubLoop, List.erase_cons]
    simp only [unsubscribe, h, hsubs, hloop]
    simp [dictGet_dictDel_self]
  · intro info g other hg h hsubs hother
    subst hg
    have hrest : unsubLoop sender (some g) [other] = (false, [other]) := by
      cases other with
      | user id => simp [unsubLoop]
      | group id m =>
          have hid : id ≠ g := by
            simpa [matchesGroup, decide_eq_false_iff_not] using hother
          simp [unsubLoop, hid]
    have hloop : unsubLoop sender (some g)
        [Subscriber.group g [sender], other] = (true, [other]) := by
      rw [unsubLoop, hrest]
      simp [List.erase_cons]
    simp only [unsubscribe, h, hsubs, hloop]
    simp [dictGet_dictSet_self, h]

def infoC4 : GameInfo :=
  ⟨"Stardew", "4", "cn", some 30, some 30, some 0,
   [Subscriber.group "g" ["a"], Subscriber.user "x"]⟩

def storeC4 : MonitorList := [("4", infoC4)]

def infoC4b : GameInfo :=
  ⟨"Hollow", "5", "cn", none, none, none, [Subscriber.user "y"]⟩

def storeC4b : MonitorList := [("5", infoC4b)]

/-- Witness for C4: removing the acting group's last member (`a` from
group `g`) keeps the item alive with the remaining individual subscriber
`x`; removing the sole individual subscriber `y` deletes the item. -/
theorem unsubscribe_prunes_witness :
    dictGet (unsubscribe storeC4 "4" "a" (some "g")).1 "4"
      = some { infoC4 with subscribers := [Subscriber.user "x"] } ∧
    dictGet (unsubscribe storeC4b "5" "y" none).1 "5" = none := by
  constructor
  · exact (unsubscribe_prunes storeC4 "4" "a" (some "g")).2.2 infoC4 "g"
      (Subscriber.user "x") rfl rfl rfl rfl
  · exact (unsubscribe_prunes storeC4b "5" "y" none).2.1 infoC4b
      (Subscriber.user "y") rfl rfl rfl

/-!
Concurrency (claim C3).  `monitor_prices` takes the lock only to READ the
document (line 158), releases it, `await`s the price fetch for each game —
a suspension point of the cooperative scheduler — and then re-takes the
lock to WRITE its evolved snapshot wholesale (lines 210-212).  A subscribe
command whose own locked read-modify-write commits inside that window is
therefore overwritten by the monitor's write-back: the monitor writes the
subscriber list as it looked at snapshot time.  `raceExec` is that
schedule: snapshot of `s`, subscribe commits on `s`, monitor write-back
replaces the whole file with its evolved snapshot.
-/

/-- A whole-document write: `json.dump` replaces the file's previous
contents entirely. -/
def overwriteFile (fileBefore newContents : MonitorList) : MonitorList :=
  newContents

/-- The interleaving "monitor snapshots `s`; a subscribe command commits;
the monitor's write-back persists its evolved snapshot": the final file
contents after this legal schedule of the source's lock acquisitions. -/
def raceExec (s : MonitorList) (f : PriceFetch) (gid gname region sender : String)
    (gctx : Option String) : MonitorList :=
  overwriteFile (subscribe s gid gname region sender gctx).1 (monitor_prices s f).1

def infoC3 : GameInfo :=
  ⟨"Factorio", "6", "cn", some 100, some 100, some 0, [Subscriber.user "u1"]⟩

def storeC3 : MonitorList := [("6", infoC3)]

def infoC3b : GameInfo :=
  { infoC3 with subscribers := [Subscriber.user "u1", Subscriber.user "u2"] }

def pdC3 : PriceData := ⟨false, 80, 100, 20, "CNY"⟩

def fetchC3 : PriceFetch := fun gid => if gid = "6" then some pdC3 else none

/-- Claim C3 is violated by the code: user `u2` subscribes to the game
while the monitor cycle is between its snapshot and its write-back, and the
write-back silently erases the subscription — the final subscriber set is
`[u1]`, while applying the same operations in their real-time commit order
(subscribe before the monitor's write) leaves `[u1, u2]`. -/
theorem monitor_subscribe_lost_update :
    (dictGet (raceExec storeC3 fetchC3 "6" "Factorio" "cn" "u2" none) "6").map
        GameInfo.subscribers
      = some [Subscriber.user "u1"] ∧
    (dictGet (monitor_prices
        (subscribe storeC3 "6" "Factorio" "cn" "u2" none).1 fetchC3).1 "6").map
        GameInfo.subscribers
      = some [Subscriber.user "u1", Subscriber.user "u2"] := by
  have hd : pdC3.current_price - (100 : ℚ) ≠ 0 := by norm_num [pdC3]
  constructor
  · have hstep : ∀ st, processGameStore fetchC3 st "6" infoC3
        = dictSet st "6" (updateEntry infoC3 pdC3) := by
      intro st
      simp [processGameStore, fetchC3, infoC3, hd]
    have h1 : dictGet (monitor_prices storeC3 fetchC3).1 "6"
        = some (updateEntry infoC3 pdC3) :=
      monitorLoop_get_main fetchC3 (updateEntry infoC3 pdC3) hstep storeC3 storeC3
        (by simp [storeC3, dictKeys]) (by simp [storeC3]) (by simp [storeC3, dictKeys])
    show (dictGet (monitor_prices storeC3 fetchC3).1 "6").map GameInfo.subscribers
        = some [Subscriber.user "u1"]
    rw [h1]
    simp [updateEntry, infoC3]
  · have hsub : (subscribe storeC3 "6" "Factorio" "cn" "u2" none).1
        = [("6", infoC3b)] := by rfl
    rw [hsub]
    have hstep : ∀ st, processGameStore fetchC3 st "6" infoC3b
        = dictSet st "6" (updateEntry infoC3b pdC3) := by
      intro st
      simp [processGameStore, fetchC3, infoC3b, infoC3, hd]
    have h1 : dictGet (monitor_prices [("6", infoC3b)] fetchC3).1 "6"
        = some (updateEntry infoC3b pdC3) :=
      monitorLoop_get_main fetchC3 (updateEntry infoC3b pdC3) hstep _ _
        (by simp [dictKeys]) (by simp) (by simp [dictKeys])
    rw [h1]
    simp [updateEntry, infoC3b, infoC3]

/-!
Subscription store load (claim C5).  `load_user_monitors` (src/main.py
lines 73-84) reads and parses `monitor_list.json` inside
`except FileNotFoundError or json.JSONDecodeError`.  Python evaluates the
expression `FileNotFoundError or json.JSONDecodeError` first — `or` on two
truthy class objects yields the FIRST one — so the clause catches ONLY
`FileNotFoundError`: a corrupt (unparseable) document raises
`json.JSONDecodeError` out of the load.  The cycle-time load in
`monitor_prices` (lines 160-164) has the mirrored slip,
`except json.JSONDecodeError or FileNotFoundError`, catching only
`json.JSONDecodeError`, so there a MISSING file raises.  The code's own
comments ("file missing or corrupt: initialize an empty dict") document
the intent that both be caught.
-/

/-- The state of the persisted document before a load. -/
inductive FileState where
  | missing
  | corrupt
  | ok (s : MonitorList)

/-- The Python exception that escapes a failed load. -/
inductive PyError where
  | fileNotFound
  | jsonDecodeError
  deriving DecidableEq

/-- Embeds `load_user_monitors`: result is the loaded mapping plus the file
state after the call, or the escaping exception.  A missing file is caught
(empty mapping, empty document repersisted); a corrupt file raises
`json.JSONDecodeError` because the `except` clause names only
`FileNotFoundError`. -/
def load_user_monitors : FileState → Except PyError (MonitorList × FileState)
  | FileState.missing => Except.ok ([], FileState.ok [])
  | FileState.corrupt => Except.error PyError.jsonDecodeError
  | FileState.ok s => Except.ok (s, FileState.ok s)

/-- Embeds the document load at the start of `monitor_prices`
(lines 158-164): a corrupt file is caught (empty mapping, file left as it
is), a missing file raises `FileNotFoundError`. -/
def monitorCycleLoad : FileState → Except PyError MonitorList
  | FileState.missing => Except.error PyError.fileNotFound
  | FileState.corrupt => Except.ok []
  | FileState.ok s => Except.ok s

/-- Claim C5 is violated by the code: a corrupt document makes
`load_user_monitors` raise `json.JSONDecodeError` instead of returning an
empty mapping (and the monitor-cycle load likewise raises on a missing
file); only the missing-file case of `load_user_monitors` self-heals as
the claim describes. -/
theorem load_user_monitors_raises_on_corrupt :
    load_user_monitors FileState.corrupt = Except.error PyError.jsonDecodeError ∧
    monitorCycleLoad FileState.missing = Except.error PyError.fileNotFound ∧
    load_user_monitors FileState.missing = Except.ok ([], FileState.ok []) :=
  ⟨rfl, rfl, rfl⟩

/-!
Catalog cache (`get_app_list`, src/main.py lines 60-71).  On success the
upstream app list is turned into a name-to-id dict (later duplicates of a
name overwrite earlier ones, as in the Python dict comprehension) and
becomes the new in-memory mapping.  On ANY failure the handler logs and
executes `self.app_dict_all = {}`: the in-memory mapping is reset to
empty, discarding whatever mapping was loaded before.  The exception is
swallowed (the function always returns normally).
-/

/-- The in-memory catalog: name to appid. -/
abbrev AppDict := List (String × ℕ)

/-- One step of the dict comprehension `{app["name"]: app["appid"] ...}`:
a repeated name overwrites, a new name is appended. -/
def upsertApp (d : AppDict) (k : String) (v : ℕ) : AppDict :=
  if (dictGet d k).isSome then dictSet d k v else d ++ [(k, v)]

/-- The dict built from the upstream app list. -/
def buildAppDict (apps : List (String × ℕ)) : AppDict :=
  apps.foldl (fun d p => upsertApp d p.1 p.2) []

/-- A failed catalog refresh (network, JSON shape, file write, ...). -/
inductive FetchErr where
  | transport
  deriving DecidableEq

/-- Embeds `get_app_list` as a function of the previous in-memory mapping
and the fetch outcome: returns the new in-memory mapping and the logged
error if any.  The function never raises — the broad `except` swallows
everything — and on failure it assigns `{}`, not the previous mapping. -/
def get_app_list (prev : AppDict) (result : Except FetchErr (List (String × ℕ))) :
    AppDict × Option FetchErr :=
  match result with
  | Except.ok apps => (buildAppDict apps, none)
  | Except.error e => ([], some e)

/-- Counterexample to claim C6 as stated: with a previously loaded
non-empty mapping, a failed refresh does NOT leave the mapping untouched —
it resets it to empty. -/
theorem get_app_list_clobbers_previous :
    ¬ ((get_app_list [("A", 1)] (Except.error FetchErr.transport)).1 = [("A", 1)]) := by
  simp [get_app_list]

/-- Claim C6 as amended: on a failed catalog refresh the in-memory mapping
is reset to the empty mapping (discarding any previous mapping), the error
is recorded in the log, and nothing is raised to the caller (the model is
a total function); a successful refresh installs the freshly built dict. -/
theorem get_app_list_failure_resets_to_empty
    (prev : AppDict) (e : FetchErr) (apps : List (String × ℕ)) :
    get_app_list prev (Except.error e) = ([], some e) ∧
    get_app_list prev (Except.ok apps) = (buildAppDict apps, none) :=
  ⟨rfl, rfl⟩

/-- Counterexample to claim C7 as stated, at minor-unit amount 1999
(¥19.99): `get_steam_price` converts with Python float division, and the
binary64 double nearest to `1999 / 100` is `5626684784446013 / 2 ^ 48`,
which is NOT the exact decimal value `1999 / 100` — the conversion is
binary floating point, not exact fixed-point/decimal arithmetic. -/
theorem get_steam_price_conversion_inexact :
    (get_steam_price (some ⟨true, ⟨false, some ⟨1999, 3999, 50, "CNY"⟩⟩⟩)).map
        PriceData.current_price = some (pythonTrueDiv100 1999) ∧
    pythonTrueDiv100 1999 ≠ exactDiv100 1999 := by
  refine ⟨rfl, ?_⟩
  have he : floatDivIntExp 1999 100 = 4 := by decide
  have hm : roundHalfEvenDiv 562668478444601344 100 = 5626684784446013 := by decide
  have ht : (48 : ℤ).toNat = 48 := by decide
  rw [pythonTrueDiv100, floatDivNat]
  norm_num [he, hm, ht, exactDiv100]

/-- Claim C7 as amended: the conversion is binary floating-point division
(inexact in general, see the counterexample), but it is a function of the
upstream integer amount alone, so two fetches of the same amount always
produce exactly equal prices and their difference is exactly zero — the
conversion itself never produces a spurious delta between equal upstream
amounts. -/
theorem pythonTrueDiv100_deterministic (n m : ℕ) (h : n = m) :
    pythonTrueDiv100 n = pythonTrueDiv100 m ∧
    pythonTrueDiv100 n - pythonTrueDiv100 m = 0 := by
  subst h
  exact ⟨rfl, sub_self _⟩

/-- Witness for the amended C7 at the counterexample's own amount. -/
theorem pythonTrueDiv100_deterministic_witness :
    pythonTrueDiv100 1999 = pythonTrueDiv100 1999 ∧
    pythonTrueDiv100 1999 - pythonTrueDiv100 1999 = 0 :=
  pythonTrueDiv100_deterministic 1999 1999 rfl

/-!
Name resolver (`get_appid_by_name`, src/main.py lines 86-105).  An empty
(or absent) candidate dict returns `None` before the scorer library is
ever invoked.  Otherwise `process.extractOne` scans the candidate names in
order, keeping the highest-scoring one (the first encountered on ties),
and the match is accepted exactly when its score is at least 70.  The
fuzzy scorer itself is the external library; it is abstracted as a
function `score : query -> candidate -> rational` on the 0-100 scale, and
`extractOne` models the library's maximum selection. -/

/-- Embeds `process.extractOne(query, choices, scorer)`: the best-scoring
choice with its score, earliest choice winning ties; `none` on no
choices. -/
def extractOne (score : String → String → ℚ) (query : String) :
    List String → Option (String × ℚ)
  | [] => none
  | c :: cs =>
      match extractOne score query cs with
      | none => some (c, score query c)
      | some p =>
          if p.2 ≤ score query c then some (c, score query c) else some p

/-- Embeds `get_appid_by_name`: `None` on an empty dict, otherwise the
best fuzzy match accepted only at score 70 or above, returning
`[appid, matched_name]`. -/
def get_appid_by_name (score : String → String → ℚ) (user_input : String)
    (target_dict : List (String × ℕ)) : Option (ℕ × String) :=
  if target_dict = [] then none
  else
    match extractOne score user_input (dictKeys target_dict) with
    | some (matched_name, sc) =>
        if 70 ≤ sc then
          some ((dictGet target_dict matched_name).getD 0, matched_name)
        else none
    | none => none

theorem extractOne_eq_none (score : String → String → ℚ) (query : String) :
    ∀ choices, extractOne score query choices = none → choices = [] := by
  intro choices h
  cases choices with
  | nil => rfl
  | cons c cs =>
      exfalso
      simp only [extractOne] at h
      split at h
      · simp at h
      · split at h <;> simp at h

theorem extractOne_is_max (score : String → String → ℚ) (query : String) :
    ∀ choices name sc, extractOne score query choices = some (name, sc) →
      name ∈ choices ∧ sc = score query name ∧
      ∀ c ∈ choices, score query c ≤ sc := by
  intro choices
  induction choices with
  | nil => intro name sc h; simp [extractOne] at h
  | cons c cs ih =>
      intro name sc h
      simp only [extractOne] at h
      split at h
      · rename_i h2
        obtain ⟨rfl, rfl⟩ := Prod.mk.inj (Option.some.inj h)
        have hnil : cs = [] := extractOne_eq_none score query cs h2
        subst hnil
        exact ⟨by simp, rfl, by simp⟩
      · rename_i p h2
        obtain ⟨hb, hsb, hall⟩ := ih p.1 p.2 (by rw [h2])
        split at h
        · rename_i hle
          obtain ⟨rfl, rfl⟩ := Prod.mk.inj (Option.some.inj h)
          refine ⟨by simp, rfl, ?_⟩
          intro x hx
          rcases List.mem_cons.mp hx with rfl | hx
          · exact le_refl _
          · exact le_trans (hall x hx) hle
        · rename_i hle
          have hp := Option.some.inj h
          subst hp
          refine ⟨List.mem_cons_of_mem _ hb, hsb, ?_⟩
          intro x hx
          rcases List.mem_cons.mp hx with rfl | hx
          · exact le_of_lt (lt_of_not_le hle)
          · exact hall x hx

/-- Claim C8: the resolver returns `None` for an empty candidate dict no
matter what the scorer would say; otherwise, whenever the scan yields a
best candidate, that candidate carries the maximum score over all
candidate names, it is returned exactly when its score is at least 70
(with its stored appid), and a best score of less than 70 — in particular
69 — yields `None`. -/
theorem get_appid_by_name_threshold (score : String → String → ℚ)
    (query : String) (target_dict : List (String × ℕ)) :
    (∀ score2 : String → String → ℚ, get_appid_by_name score2 query [] = none) ∧
    (∀ name sc, extractOne score query (dictKeys target_dict) = some (name, sc) →
      (name ∈ dictKeys target_dict ∧
        ∀ c ∈ dictKeys target_dict, score query c ≤ sc) ∧
      (70 ≤ sc → get_appid_by_name score query target_dict
          = some ((dictGet target_dict name).getD 0, name)) ∧
      (sc < 70 → get_appid_by_name score query target_dict = none)) := by
  refine ⟨fun _ => rfl, ?_⟩
  intro name sc h
  obtain ⟨hmem, _, hmax⟩ := extractOne_is_max score query (dictKeys target_dict) name sc h
  have hne : target_dict ≠ [] := by
    rintro rfl
    simp [extractOne] at h
  refine ⟨⟨hmem, hmax⟩, ?_, ?_⟩
  · intro h70
    simp only [get_appid_by_name, if_neg hne, h, if_pos h70]
  · intro h69
    simp only [get_appid_by_name, if_neg hne, h, if_neg (not_le.mpr h69)]

def scoreC8 : String → String → ℚ := fun _ c => if c = "Portal" then 80 else 10

/-- Witness for C8: with a scorer valuing `"Portal"` at 80 and everything
else at 10, the resolver picks `"Portal"` with its appid; the empty dict
yields no match. -/
theorem get_appid_by_name_threshold_witness :
    get_appid_by_name scoreC8 "portal" [("Half-Life", 70), ("Portal", 400)]
      = some (400, "Portal") ∧
    get_appid_by_name scoreC8 "portal" [] = none := by
  have h := get_appid_by_name_threshold scoreC8 "portal"
    [("Half-Life", 70), ("Portal", 400)]
  have hex : extractOne scoreC8 "portal"
      (dictKeys [("Half-Life", 70), ("Portal", 400)]) = some ("Portal", 80) := by
    decide
  have h2 := (h.2 "Portal" 80 hex).2.1 (by norm_num)
  exact ⟨h2, h.1 scoreC8⟩
